import Mathlib

/-!
Verification of the directory-size cache and scan engine of
`my_disk_cleaner.py` against its specification.

Paths are modelled as lists of components (`List String`); `os.path.dirname`
is `List.dropLast`, the `startswith` test on paths is `List.isPrefixOf`, and
`os.path.join root c` is `root ++ [c]`.  Machine state that the Python code
reads through the OS (file sizes, symlink flags, Windows attributes, mtimes)
is part of an explicit filesystem value, and the SQLite size-cache table is a
map from paths to `(size, mtime)` pairs.  SQLite errors are modelled by two
booleans (`lookupFails`, `writeFails`): the Python code wraps the whole
lookup and the whole batch write each in one `try/except` around a single
transaction, so each either completes or has no observable effect.
-/

namespace MyDiskCleaner

/-- A filesystem path, as its list of components. -/
abbrev Path := List String

/-! ### The ancestor chain built by the walk (source lines 241-251)

`ancestor = file_path` and then repeatedly `ancestor = os.path.dirname(ancestor)`;
each ancestor that still `startswith(path)` is collected, stopping (inclusively)
at `path` itself, or (exclusively) as soon as the prefix test fails.  The loop
strictly shortens the path each iteration, so running it with `p.length + 1`
steps of fuel is exact (proved below in `mem_ancLoop`). -/

def ancLoop (root : Path) : Nat → Path → List Path
  | 0, _ => []
  | Nat.succ fuel, p =>
    if root.isPrefixOf p.dropLast then
      if p.dropLast = root then [root]
      else p.dropLast :: ancLoop root fuel p.dropLast
    else []

def ancestorsFrom (root p : Path) : List Path :=
  ancLoop root (p.length + 1) p

/-! ### Filesystem model -/

/-- A file as the scan observes it: its path, the byte size `os.path.getsize`
would report, whether `os.path.islink` is true, whether `os.path.exists` is
true (used by `is_windows_hardlink`), the Windows file attributes as returned
by `GetFileAttributesW` (`none` models the `ctypes` call raising), and whether
`os.path.getsize` raises for it. -/
structure FSFile where
  path : Path
  size : Nat
  isLink : Bool
  winExists : Bool
  winAttrs : Option Int
  sizeError : Bool
deriving DecidableEq

/-- The filesystem as the program observes it: the regular files reachable by
`os.walk`, the per-directory `int(os.path.getmtime(...))` result (`none` means
the call raises), and the `os.path.exists` / `os.path.isdir` predicates used
by `_get_entries_process`. -/
structure FS where
  files : List FSFile
  dirMtime : Path → Option Int
  pathKnown : Path → Bool
  pathIsDir : Path → Bool

/-- Source line 179: `FILE_ATTRIBUTE_REPARSE_POINT = 0x0400`. -/
def FILE_ATTRIBUTE_REPARSE_POINT : Nat := 0x0400

/-- Source lines 170-185 (`is_windows_hardlink`): `False` off Windows, `False`
for a path that does not exist, `False` when the attribute call fails or
returns `-1`, otherwise the reparse-point attribute bit. -/
def is_windows_hardlink (isWin : Bool) (f : FSFile) : Bool :=
  if !isWin then false
  else if !f.winExists then false
  else
    match f.winAttrs with
    | none => false
    | some attrs =>
      if attrs = -1 then false
      else (attrs.toNat &&& FILE_ATTRIBUTE_REPARSE_POINT) != 0

/-- A file contributes to the totals iff it passes the link/reparse exclusion
of source lines 227-230 and its `os.path.getsize` call (line 233) does not
raise (lines 255-256 swallow the error and skip the file). -/
def includedFile (isWin : Bool) (f : FSFile) : Bool :=
  !(f.isLink || is_windows_hardlink isWin f) && !f.sizeError

/-- The files `os.walk(root)` enumerates: every file of the filesystem whose
directory is `root` or a descendant of `root`. -/
def filesUnder (fs : FS) (root : Path) : List FSFile :=
  fs.files.filter (fun f => root.isPrefixOf f.path.dropLast)

/-! ### The Python dict `dir_path_to_size` -/

/-- Insertion-ordered key list plus total value map (defaulting to `0`,
matching the only read `dir_path_to_size.get(dir_path, 0)`). -/
structure PyDict where
  keys : List Path
  val : Path → Nat

def PyDict.empty : PyDict := ⟨[], fun _ => 0⟩

def PyDict.get (m : PyDict) (k : Path) : Nat := m.val k

def PyDict.set (m : PyDict) (k : Path) (v : Nat) : PyDict :=
  ⟨if k ∈ m.keys then m.keys else m.keys ++ [k],
   fun q => if q = k then v else m.val q⟩

/-- `dict.items()`: each stored key with its value, in insertion order. -/
def PyDict.items (m : PyDict) : List (Path × Nat) :=
  m.keys.map (fun k => (k, m.val k))

/-! ### The cache-miss walk (source lines 220-256) -/

structure WalkState where
  total_size : Nat
  total_count : Nat
  dir_path_to_size : PyDict

/-- The body of the per-file loop (source lines 225-256): skip links and
Windows reparse files, skip files whose size read raises, otherwise add the
size to the grand total and to every ancestor directory up to `root`. -/
def processFile (isWin : Bool) (root : Path) (st : WalkState) (f : FSFile) :
    WalkState :=
  if f.isLink || is_windows_hardlink isWin f then st
  else if f.sizeError then st
  else
    let size := f.size
    let ancs := ancestorsFrom root f.path
    { total_size := st.total_size + size
      total_count := st.total_count + 1
      dir_path_to_size :=
        ancs.foldl (fun m a => m.set a (m.get a + size)) st.dir_path_to_size }

/-- The whole cache-miss walk: fold the per-file loop over every file
reachable under `root`. -/
def walk (isWin : Bool) (fs : FS) (root : Path) : WalkState :=
  (filesUnder fs root).foldl (processFile isWin root) ⟨0, 0, PyDict.empty⟩

/-! ### The size cache store (the `directory_size_cache` SQLite table) -/

/-- The table keyed by `path`, holding `(size, mtime)`. -/
abbrev Cache := Path → Option (Nat × Int)

/-- The cache lookup of source lines 205-218: on store failure or no row or
an mtime mismatch the result is `none` (forcing recomputation), otherwise the
cached size. -/
def lookup_size_cache (lookupFails : Bool) (cache : Cache) (root : Path)
    (mtime : Int) : Option Nat :=
  if lookupFails then none
  else
    match cache root with
    | none => none
    | some (s, m) => if m = mtime then some s else none

/-- The batch write of source lines 258-287: one `INSERT OR REPLACE` per
`dir_path_to_size` item whose own mtime is readable at write time (items with
unreadable mtime are skipped), then one for `(root, total_size, mtime)`, all
committed as a single transaction. -/
def write_size_cache (fs : FS) (cache : Cache) (root : Path) (mtime : Int)
    (st : WalkState) : Cache :=
  let c1 := st.dir_path_to_size.items.foldl
    (fun c e =>
      match fs.dirMtime e.1 with
      | none => c
      | some dm => fun q => if q = e.1 then some (e.2, dm) else c q)
    cache
  fun q => if q = root then some (st.total_size, mtime) else c1 q

/-- Result of `get_directory_size`: the returned size, the cache store state
after the call, and whether the recursive walk ran. -/
structure GdsResult where
  size : Nat
  cache : Cache
  walked : Bool

/-- Source lines 188-288 (`get_directory_size`): read the directory's own
mtime (unreadable: return 0, no walk, no write); try the cache (a hit returns
the cached size with no walk and no write); otherwise walk, then write the
batch back unless the write fails (a failed write persists nothing, the
transaction never commits), and return the computed total either way. -/
def get_directory_size (isWin : Bool) (fs : FS) (cache : Cache)
    (lookupFails writeFails : Bool) (root : Path) : GdsResult :=
  match fs.dirMtime root with
  | none => ⟨0, cache, false⟩
  | some mtime =>
    match lookup_size_cache lookupFails cache root mtime with
    | some s => ⟨s, cache, false⟩
    | none =>
      let st := walk isWin fs root
      ⟨st.total_size,
       if writeFails then cache else write_size_cache fs cache root mtime st,
       true⟩

/-! ### `_get_entries_process` in multi-root (list) mode (source lines 599-671) -/

/-- A result row: name, absolute path, directory flag, and size (`none`
renders as `"-"` when size display is off). -/
structure Entry where
  name : Path
  path : Path
  is_dir : Bool
  size : Option Nat
deriving DecidableEq

/-- `os.path.getsize` for a single path (`none` models the call raising,
including for a missing path). -/
def getsize_file (fs : FS) (p : Path) : Option Nat :=
  match fs.files.find? (fun f => f.path == p) with
  | none => none
  | some f => if f.sizeError then none else some f.size

/-- One iteration of the per-target loop in list mode (`sets_name_to_path`
true): skip empty or nonexistent targets; a directory target contributes one
row named by its full path, sized via `get_directory_size` when sizing is on;
a file target contributes one row named by its basename, sized via
`os.path.getsize` with errors degrading to 0. -/
def entries_step (isWin : Bool) (fs : FS) (lookupFails writeFails : Bool)
    (show_dir_sizes : Bool) (acc : List Entry × Cache) (t : Path) :
    List Entry × Cache :=
  if t.isEmpty || !fs.pathKnown t then acc
  else if fs.pathIsDir t then
    let r := get_directory_size isWin fs acc.2 lookupFails writeFails t
    (acc.1 ++ [{ name := t, path := t, is_dir := true,
                 size := if show_dir_sizes then some r.size else none }],
     r.cache)
  else
    (acc.1 ++ [{ name := [t.getLastD ""], path := t, is_dir := false,
                 size := if show_dir_sizes
                         then some ((getsize_file fs t).getD 0) else none }],
     acc.2)

/-- `_get_entries_process` when `target_or_targets` is a list of root paths:
fold the loop body over the targets in order, starting from an empty result
list, threading the cache store state through the calls. -/
def get_entries_list (isWin : Bool) (fs : FS) (cache : Cache)
    (lookupFails writeFails : Bool) (targets : List Path)
    (show_dir_sizes : Bool) : List Entry × Cache :=
  targets.foldl (entries_step isWin fs lookupFails writeFails show_dir_sizes)
    ([], cache)

/-! ### `delete_items` (source lines 291-300) -/

/-- Filesystem state for deletion: all nodes as `(path, is_dir)` pairs, plus
which `shutil.rmtree` / `os.remove` calls would raise. -/
structure DelFS where
  nodes : List (Path × Bool)
  rmtreeFails : Path → Bool
  removeFails : Path → Bool

/-- One iteration of the `delete_items` loop: `os.path.isdir` selects
`shutil.rmtree` (removing the whole subtree) or `os.remove` (removing one
file; raising for a missing path); every exception is swallowed, leaving the
state unchanged for that item. -/
def delete_one (fs : DelFS) (item : Path) : DelFS :=
  if (item, true) ∈ fs.nodes then
    if fs.rmtreeFails item then fs
    else { fs with nodes := fs.nodes.filter (fun n => !(item.isPrefixOf n.1)) }
  else if (item, false) ∈ fs.nodes ∧ fs.removeFails item = false then
    { fs with nodes := fs.nodes.filter (fun n => n ≠ (item, false)) }
  else fs

/-- `delete_items`: the loop over all requested items.  It is a total
function: no per-item failure escapes the loop. -/
def delete_items (fs : DelFS) (items : List Path) : DelFS :=
  items.foldl delete_one fs

/-! ### The admin database: `target_directories` (source lines 28-84) -/

/-- Columns of `target_directories` as created by `init_admin_db`
(source lines 42-50): `platform` and `path`. -/
def target_directories_columns : List String := ["platform", "path"]

/-- Columns named by the INSERT in `save_target_directories`
(source line 80): `platform` and `dir`. -/
def save_insert_columns : List String := ["platform", "dir"]

/-- The `target_directories` table contents: `(platform, path)` rows. -/
structure AdminDB where
  target_directories : List (String × String)
deriving DecidableEq

/-- SQLite accepts an INSERT only if every named column exists in the
table's schema; otherwise it raises an OperationalError. -/
def insert_columns_ok : Bool :=
  save_insert_columns.all (fun c => target_directories_columns.contains c)

/-- The INSERT loop of `save_target_directories` (source lines 78-82), run
against the row set left by the initial DELETE; the first failing INSERT
raises and aborts the rest. -/
def save_insert_loop (platform : String) :
    List (String × String) → List String → Except String (List (String × String))
  | rows, [] => Except.ok rows
  | rows, d :: ds =>
    if insert_columns_ok then
      save_insert_loop platform (rows ++ [(platform, d)]) ds
    else Except.error "table target_directories has no column named dir"

/-- Source lines 73-84 (`save_target_directories`): DELETE the platform's
rows, INSERT the new ones, then commit.  There is no try/except: an SQLite
error propagates to the caller, `commit` is never reached, and closing the
connection rolls the uncommitted DELETE back, so on error the persisted
database is unchanged.  Returns (raised error if any, persisted database). -/
def save_target_directories (db : AdminDB) (platform : String)
    (dirs : List String) : Option String × AdminDB :=
  match save_insert_loop platform
      (db.target_directories.filter (fun r => r.1 ≠ platform)) dirs with
  | Except.ok rows => (none, ⟨rows⟩)
  | Except.error e => (some e, db)

/-! ### Concrete fixtures used by witnesses and counterexamples -/

/-- The empty cache store. -/
def cache0 : Cache := fun _ => none

/-- A small filesystem: root `r` with files `f1` (3 bytes), `bad`
(size read raises), symlink `ln`, and subdirectory `s` holding `f2`
(5 bytes). -/
def fsA : FS :=
  { files :=
      [ { path := ["r", "f1"], size := 3, isLink := false, winExists := true,
          winAttrs := none, sizeError := false }
      , { path := ["r", "s", "f2"], size := 5, isLink := false,
          winExists := true, winAttrs := none, sizeError := false }
      , { path := ["r", "ln"], size := 100, isLink := true, winExists := true,
          winAttrs := none, sizeError := false }
      , { path := ["r", "bad"], size := 7, isLink := false, winExists := true,
          winAttrs := none, sizeError := true } ]
    dirMtime := fun p =>
      if p = ["r"] then some 11 else if p = ["r", "s"] then some 12 else none
    pathKnown := fun p => p == ["r"] || p == ["r", "s"]
    pathIsDir := fun p => p == ["r"] || p == ["r", "s"] }

/-- A cache holding a fresh entry for directory `r` of `fsA`
(size 42, recorded mtime 11 = current mtime). -/
def cacheB : Cache := fun p => if p = ["r"] then some (42, 11) else none

/-- A filesystem where the intermediate directory `r/a` is discovered by the
walk but its mtime read raises at cache-write time. -/
def fsC4 : FS :=
  { files :=
      [ { path := ["r", "a", "f"], size := 5, isLink := false,
          winExists := true, winAttrs := none, sizeError := false } ]
    dirMtime := fun p => if p = ["r"] then some 10 else none
    pathKnown := fun p => p == ["r"]
    pathIsDir := fun p => p == ["r"] }

/-- A filesystem for the multi-root listing where only root `a` exists. -/
def fsE : FS :=
  { files := []
    dirMtime := fun p => if p = ["a"] then some 1 else none
    pathKnown := fun p => p == ["a"]
    pathIsDir := fun p => p == ["a"] }

/-- A deletion fixture: file `f`, directory `dd` containing `dd/x`, and an
unrelated file `z`; nothing fails to delete. -/
def delA : DelFS :=
  { nodes := [(["f"], false), (["dd"], true), (["dd", "x"], false),
              (["z"], false)]
    rmtreeFails := fun _ => false
    removeFails := fun _ => false }

/-- An admin database holding one pre-existing row. -/
def dbA : AdminDB := ⟨[("mac", "/old")]⟩

/-- A Windows file carrying the reparse-point attribute bit. -/
def reparseSample : FSFile :=
  { path := ["w"], size := 9, isLink := false, winExists := true,
    winAttrs := some 1024, sizeError := false }

/-! ### Prefix helper lemmas (about `List.isPrefixOf`) -/

theorem isPrefixOf_iff_append {l₁ l₂ : Path} :
    l₁.isPrefixOf l₂ = true ↔ ∃ t, l₁ ++ t = l₂ := by
  induction l₁ generalizing l₂ with
  | nil => simp [List.isPrefixOf]
  | cons a as ih =>
    cases l₂ with
    | nil => simp [List.isPrefixOf]
    | cons b bs =>
      simp [List.isPrefixOf, ih, List.cons_append, and_comm]

theorem bpre_refl (l : Path) : l.isPrefixOf l = true :=
  isPrefixOf_iff_append.mpr ⟨[], List.append_nil l⟩

theorem bpre_trans {a b c : Path} (h₁ : a.isPrefixOf b = true)
    (h₂ : b.isPrefixOf c = true) : a.isPrefixOf c = true := by
  obtain ⟨t₁, rfl⟩ := isPrefixOf_iff_append.mp h₁
  obtain ⟨t₂, rfl⟩ := isPrefixOf_iff_append.mp h₂
  exact isPrefixOf_iff_append.mpr ⟨t₁ ++ t₂, (List.append_assoc a t₁ t₂).symm⟩

theorem bpre_nil {l : Path} : l.isPrefixOf ([] : Path) = true ↔ l = [] := by
  rw [isPrefixOf_iff_append]
  constructor
  · rintro ⟨t, ht⟩
    exact (List.append_eq_nil.mp ht).1
  · rintro rfl
    exact ⟨[], rfl⟩

theorem bpre_length_le {a b : Path} (h : a.isPrefixOf b = true) :
    a.length ≤ b.length := by
  obtain ⟨t, rfl⟩ := isPrefixOf_iff_append.mp h
  simp

theorem bpre_antisymm {a b : Path} (h₁ : a.isPrefixOf b = true)
    (h₂ : b.isPrefixOf a = true) : a = b := by
  obtain ⟨t, rfl⟩ := isPrefixOf_iff_append.mp h₁
  have hl := bpre_length_le h₂
  simp only [List.length_append] at hl
  have : t = [] := List.eq_nil_of_length_eq_zero (by omega)
  simp [this]

theorem bpre_dropLast_self (l : Path) : l.dropLast.isPrefixOf l = true := by
  cases h : l with
  | nil => simp [List.isPrefixOf]
  | cons a as =>
    rw [← h]
    exact isPrefixOf_iff_append.mpr
      ⟨[l.getLast (by simp [h])], List.dropLast_append_getLast _⟩

theorem dropLast_append_of_ne_nil (d : Path) {t : Path} (h : t ≠ []) :
    (d ++ t).dropLast = d ++ t.dropLast := by
  induction d with
  | nil => rfl
  | cons x xs ih =>
    have hx : xs ++ t ≠ [] := by
      intro hc
      exact h (List.append_eq_nil.mp hc).2
    rw [List.cons_append, List.dropLast_cons_of_ne_nil hx, ih, List.cons_append]

theorem bpre_dropLast_of_ne {d b : Path} (h : d.isPrefixOf b = true)
    (hne : d ≠ b) : d.isPrefixOf b.dropLast = true := by
  obtain ⟨t, rfl⟩ := isPrefixOf_iff_append.mp h
  have ht : t ≠ [] := by
    rintro rfl
    exact hne (List.append_nil d).symm
  rw [dropLast_append_of_ne_nil d ht]
  exact isPrefixOf_iff_append.mpr ⟨t.dropLast, rfl⟩

/-! ### Characterization of the ancestor chain -/

theorem mem_ancLoop (root : Path) :
    ∀ (fuel : Nat) (p d : Path), p.length < fuel →
      (d ∈ ancLoop root fuel p ↔
        (root.isPrefixOf d = true ∧ d.isPrefixOf p.dropLast = true)) := by
  intro fuel
  induction fuel with
  | zero => intro p d hf; omega
  | succ fuel ih =>
    intro p d hf
    simp only [ancLoop]
    by_cases h1 : root.isPrefixOf p.dropLast = true
    · rw [if_pos h1]
      by_cases h2 : p.dropLast = root
      · rw [if_pos h2, h2]
        simp only [List.mem_singleton]
        constructor
        · rintro rfl
          exact ⟨bpre_refl _, bpre_refl _⟩
        · rintro ⟨ha, hb⟩
          exact bpre_antisymm hb ha
      · rw [if_neg h2]
        have hne : p ≠ [] := by
          intro hc
          rw [hc] at h1 h2
          simp only [List.dropLast_nil] at h1 h2
          exact h2 (bpre_nil.mp h1).symm
        have hlt : p.dropLast.length < fuel := by
          have h0 : 0 < p.length := List.length_pos.mpr hne
          simp only [List.length_dropLast]
          omega
        have hrec := ih p.dropLast d hlt
        simp only [List.mem_cons, hrec]
        constructor
        · rintro (rfl | ⟨ha, hb⟩)
          · exact ⟨h1, bpre_refl _⟩
          · exact ⟨ha, bpre_trans hb (bpre_dropLast_self _)⟩
        · rintro ⟨ha, hb⟩
          by_cases hd : d = p.dropLast
          · exact Or.inl hd
          · exact Or.inr ⟨ha, bpre_dropLast_of_ne hb hd⟩
    · rw [if_neg h1]
      simp only [List.not_mem_nil, false_iff, not_and]
      intro ha hb
      exact h1 (bpre_trans ha hb)

theorem mem_ancestorsFrom (root p d : Path) :
    d ∈ ancestorsFrom root p ↔
      (root.isPrefixOf d = true ∧ d.isPrefixOf p.dropLast = true) :=
  mem_ancLoop root (p.length + 1) p d (Nat.lt_succ_self _)

theorem nodup_ancLoop (root : Path) :
    ∀ (fuel : Nat) (p : Path), p.length < fuel →
      (ancLoop root fuel p).Nodup := by
  intro fuel
  induction fuel with
  | zero => intro p hf; omega
  | succ fuel ih =>
    intro p hf
    simp only [ancLoop]
    by_cases h1 : root.isPrefixOf p.dropLast = true
    · rw [if_pos h1]
      by_cases h2 : p.dropLast = root
      · rw [if_pos h2]
        simp
      · rw [if_neg h2]
        have hne : p ≠ [] := by
          intro hc
          rw [hc] at h1 h2
          simp only [List.dropLast_nil] at h1 h2
          exact h2 (bpre_nil.mp h1).symm
        have hlt : p.dropLast.length < fuel := by
          have h0 : 0 < p.length := List.length_pos.mpr hne
          simp only [List.length_dropLast]
          omega
        refine List.nodup_cons.mpr ⟨?_, ih p.dropLast hlt⟩
        intro hmem
        have hb := ((mem_ancLoop root fuel p.dropLast p.dropLast hlt).mp hmem).2
        have hlen := bpre_length_le hb
        have hned : p.dropLast ≠ [] := by
          intro hc
          rw [hc] at h1 h2
          exact h2 (bpre_nil.mp h1).symm
        have hpos : 0 < p.dropLast.length := List.length_pos.mpr hned
        simp only [List.length_dropLast] at hlen hpos
        omega
    · rw [if_neg h1]
      simp

theorem nodup_ancestorsFrom (root p : Path) : (ancestorsFrom root p).Nodup :=
  nodup_ancLoop root (p.length + 1) p (Nat.lt_succ_self _)

/-! ### Fold lemmas about the walk -/

theorem pyGet_set (m : PyDict) (k : Path) (v : Nat) (q : Path) :
    (m.set k v).get q = if q = k then v else m.get q := rfl

theorem mem_keys_set (m : PyDict) (k : Path) (v : Nat) (q : Path) :
    q ∈ (m.set k v).keys ↔ q ∈ m.keys ∨ q = k := by
  simp only [PyDict.set]
  by_cases h : k ∈ m.keys
  · rw [if_pos h]
    constructor
    · exact Or.inl
    · rintro (hq | rfl)
      · exact hq
      · exact h
  · rw [if_neg h]
    simp [List.mem_append]

theorem foldl_addAll (s : Nat) (ancs : List Path) :
    ∀ (m : PyDict) (d : Path),
      (ancs.foldl (fun m a => m.set a (m.get a + s)) m).get d
        = m.get d + s * ancs.count d := by
  induction ancs with
  | nil => intro m d; simp
  | cons a t ih =>
    intro m d
    rw [List.foldl_cons, ih, pyGet_set, List.count_cons]
    by_cases h : d = a
    · subst h
      simp [Nat.mul_add]
      omega
    · have : (a == d) = false := by
        simp only [beq_eq_false_iff_ne, ne_eq]
        exact fun hc => h hc.symm
      simp [if_neg h, this]

theorem foldl_addAll_keys (s : Nat) (ancs : List Path) :
    ∀ (m : PyDict) (d : Path),
      (d ∈ (ancs.foldl (fun m a => m.set a (m.get a + s)) m).keys
        ↔ d ∈ m.keys ∨ d ∈ ancs) := by
  induction ancs with
  | nil => intro m d; simp
  | cons a t ih =>
    intro m d
    rw [List.foldl_cons, ih, mem_keys_set]
    simp only [List.mem_cons]
    tauto

theorem walkState_total (isWin : Bool) (root : Path) (l : List FSFile) :
    ∀ st : WalkState,
      (l.foldl (processFile isWin root) st).total_size
        = st.total_size
          + ((l.filter (fun f => includedFile isWin f)).map (fun f => f.size)).sum := by
  induction l with
  | nil => intro st; simp
  | cons f t ih =>
    intro st
    rw [List.foldl_cons, ih, List.filter_cons]
    by_cases h1 : (f.isLink || is_windows_hardlink isWin f) = true
    · have hinc : includedFile isWin f = false := by
        simp [includedFile, h1]
      simp [processFile, h1, hinc]
    · by_cases h2 : f.sizeError = true
      · have hinc : includedFile isWin f = false := by
          simp [includedFile, h2]
        simp [processFile, h1, h2, hinc]
      · have hinc : includedFile isWin f = true := by
          simp only [includedFile, Bool.and_eq_true, Bool.not_eq_true']
          exact ⟨by simp_all, by simp_all⟩
        simp only [processFile, h1, h2, if_neg, Bool.false_eq_true,
          if_false, hinc, if_true, List.map_cons, List.sum_cons]
        omega

theorem walkState_dirs (isWin : Bool) (root : Path) (l : List FSFile) :
    ∀ (st : WalkState) (d : Path),
      ((l.foldl (processFile isWin root) st).dir_path_to_size).get d
        = st.dir_path_to_size.get d
          + (l.map (fun f =>
              if includedFile isWin f
              then f.size * ((ancestorsFrom root f.path).count d)
              else 0)).sum := by
  induction l with
  | nil => intro st d; simp
  | cons f t ih =>
    intro st d
    rw [List.foldl_cons, ih, List.map_cons, List.sum_cons]
    by_cases h1 : (f.isLink || is_windows_hardlink isWin f) = true
    · have hinc : includedFile isWin f = false := by
        simp [includedFile, h1]
      simp [processFile, h1, hinc]
    · by_cases h2 : f.sizeError = true
      · have hinc : includedFile isWin f = false := by
          simp [includedFile, h2]
        simp [processFile, h1, h2, hinc]
      · have hinc : includedFile isWin f = true := by
          simp only [includedFile, Bool.and_eq_true, Bool.not_eq_true']
          exact ⟨by simp_all, by simp_all⟩
        simp only [processFile, h1, h2, if_neg, Bool.false_eq_true,
          if_false, hinc, if_true, foldl_addAll]
        omega

theorem walkState_keys (isWin : Bool) (root : Path) (l : List FSFile) :
    ∀ (st : WalkState) (d : Path),
      (d ∈ ((l.foldl (processFile isWin root) st).dir_path_to_size).keys
        ↔ d ∈ st.dir_path_to_size.keys
          ∨ ∃ f ∈ l, includedFile isWin f = true ∧ d ∈ ancestorsFrom root f.path) := by
  induction l with
  | nil => intro st d; simp
  | cons f t ih =>
    intro st d
    rw [List.foldl_cons, ih]
    by_cases h1 : (f.isLink || is_windows_hardlink isWin f) = true
    · have hinc : includedFile isWin f = false := by
        simp [includedFile, h1]
      simp only [processFile, h1, if_true, List.mem_cons]
      constructor
      · rintro (h | ⟨g, hg, hig, hd⟩)
        · exact Or.inl h
        · exact Or.inr ⟨g, Or.inr hg, hig, hd⟩
      · rintro (h | ⟨g, rfl | hg, hig, hd⟩)
        · exact Or.inl h
        · rw [hinc] at hig; cases hig
        · exact Or.inr ⟨g, hg, hig, hd⟩
    · by_cases h2 : f.sizeError = true
      · have hinc : includedFile isWin f = false := by
          simp [includedFile, h2]
        simp only [processFile, h1, h2, if_neg, Bool.false_eq_true, if_false,
          if_true, List.mem_cons]
        constructor
        · rintro (h | ⟨g, hg, hig, hd⟩)
          · exact Or.inl h
          · exact Or.inr ⟨g, Or.inr hg, hig, hd⟩
        · rintro (h | ⟨g, rfl | hg, hig, hd⟩)
          · exact Or.inl h
          · rw [hinc] at hig; cases hig
          · exact Or.inr ⟨g, hg, hig, hd⟩
      · have hinc : includedFile isWin f = true := by
          simp only [includedFile, Bool.and_eq_true, Bool.not_eq_true']
          exact ⟨by simp_all, by simp_all⟩
        have hstep : (processFile isWin root st f).dir_path_to_size
            = (ancestorsFrom root f.path).foldl
                (fun m a => m.set a (m.get a + f.size)) st.dir_path_to_size := by
          simp [processFile, h1, h2]
        rw [hstep, foldl_addAll_keys]
        simp only [List.mem_cons]
        constructor
        · rintro ((h | hanc) | ⟨g, hg, hig, hd⟩)
          · exact Or.inl h
          · exact Or.inr ⟨f, Or.inl rfl, hinc, hanc⟩
          · exact Or.inr ⟨g, Or.inr hg, hig, hd⟩
        · rintro (h | ⟨g, rfl | hg, hig, hd⟩)
          · exact Or.inl (Or.inl h)
          · exact Or.inl (Or.inr hd)
          · exact Or.inr ⟨g, hg, hig, hd⟩

theorem sum_map_ite {α : Type} (p : α → Bool) (v : α → Nat) (l : List α) :
    (l.map (fun a => if p a then v a else 0)).sum
      = ((l.filter p).map v).sum := by
  induction l with
  | nil => rfl
  | cons a t ih =>
    rw [List.map_cons, List.sum_cons, List.filter_cons]
    by_cases h : p a = true
    · simp [h, ih]
    · simp [h, ih]

theorem writeFold_get (fs : FS) (val : Path → Nat) (ks : List Path) :
    ∀ (cache : Cache) (q : Path),
      ((ks.map (fun k => (k, val k))).foldl
        (fun c e =>
          match fs.dirMtime e.1 with
          | none => c
          | some dm => fun q' => if q' = e.1 then some (e.2, dm) else c q')
        cache) q
      = if q ∈ ks then
          (match fs.dirMtime q with
           | none => cache q
           | some dm => some (val q, dm))
        else cache q := by
  induction ks with
  | nil => intro cache q; simp
  | cons k t ih =>
    intro cache q
    rw [List.map_cons, List.foldl_cons, ih]
    by_cases hqt : q ∈ t
    · rw [if_pos hqt, if_pos (List.mem_cons.mpr (Or.inr hqt))]
      cases hm : fs.dirMtime q with
      | none =>
        simp only
        cases hk : fs.dirMtime k with
        | none => rfl
        | some dm =>
          simp only
          have : ¬q = k := by
            intro hc
            rw [hc, hk] at hm
            cases hm
          rw [if_neg this]
      | some dm => simp only
    · rw [if_neg hqt]
      by_cases hqk : q = k
      · subst hqk
        rw [if_pos (List.mem_cons_self _ _)]
        cases hm : fs.dirMtime q with
        | none => rfl
        | some dm => simp
      · rw [if_neg (by simp [List.mem_cons, hqk, hqt])]
        cases hk : fs.dirMtime k with
        | none => rfl
        | some dm =>
          simp only
          rw [if_neg hqk]

theorem count_nodup (d : Path) : ∀ (l : List Path), l.Nodup →
    l.count d = if d ∈ l then 1 else 0 := by
  intro l
  induction l with
  | nil => intro h; simp
  | cons a t ih =>
    intro h
    obtain ⟨hna, ht⟩ := List.nodup_cons.mp h
    rw [List.count_cons, ih ht]
    by_cases hda : d = a
    · subst hda
      simp [hna]
    · have hne : (a == d) = false := by
        simp only [beq_eq_false_iff_ne, ne_eq]
        exact fun hc => hda hc.symm
      by_cases hdt : d ∈ t
      · simp [hdt, hda, hne, List.mem_cons]
      · simp [hdt, hda, hne, List.mem_cons]

/-- The grand total of the walk is the sum of the sizes of the included
files reachable under the root. -/
theorem walk_total_eq (isWin : Bool) (fs : FS) (root : Path) :
    (walk isWin fs root).total_size
      = (((filesUnder fs root).filter (fun f => includedFile isWin f)).map
          (fun f => f.size)).sum := by
  unfold walk
  rw [walkState_total]
  simp [PyDict.empty]

/-! ### Claim theorems -/

/-- Claim C1: for a root whose mtime is readable and for which the cache
lookup yields no valid entry, `get_directory_size` returns the sum of the
sizes of all files reachable under the root that pass the link/reparse
exclusion and whose size read does not raise (files with stat/size errors
are excluded from the sum). -/
theorem spec_C1 (isWin : Bool) (fs : FS) (cache : Cache) (lf wf : Bool)
    (root : Path) (m : Int)
    (h1 : fs.dirMtime root = some m)
    (h2 : lookup_size_cache lf cache root m = none) :
    (get_directory_size isWin fs cache lf wf root).size
      = (((filesUnder fs root).filter (fun f => includedFile isWin f)).map
          (fun f => f.size)).sum := by
  simp only [get_directory_size, h1, h2]
  exact walk_total_eq isWin fs root

theorem spec_C1_witness :
    (get_directory_size false fsA cache0 false false ["r"]).size
      = (((filesUnder fsA ["r"]).filter (fun f => includedFile false f)).map
          (fun f => f.size)).sum :=
  spec_C1 false fsA cache0 false false ["r"] 11 rfl rfl

/-- Claim C2: when the store holds an entry for the root whose recorded
mtime equals the root's current mtime, `get_directory_size` returns the
cached size, leaves the cache store untouched (no write), and does not walk. -/
theorem spec_C2 (isWin : Bool) (fs : FS) (cache : Cache) (wf : Bool)
    (root : Path) (m : Int) (s : Nat)
    (h1 : fs.dirMtime root = some m)
    (h2 : cache root = some (s, m)) :
    get_directory_size isWin fs cache false wf root = ⟨s, cache, false⟩ := by
  simp [get_directory_size, lookup_size_cache, h1, h2]

theorem spec_C2_witness :
    get_directory_size false fsA cacheB false false ["r"]
      = ⟨42, cacheB, false⟩ :=
  spec_C2 false fsA cacheB false ["r"] 11 42 rfl rfl

/-- Claim C3: after a cache-miss walk, the per-directory map assigns to
every directory `d` extending the root the sum of the sizes of the included
files lying under `d`. -/
theorem spec_C3 (isWin : Bool) (fs : FS) (root d : Path)
    (hd : root.isPrefixOf d = true) :
    (walk isWin fs root).dir_path_to_size.get d
      = (((filesUnder fs root).filter
            (fun f => includedFile isWin f && d.isPrefixOf f.path.dropLast)).map
          (fun f => f.size)).sum := by
  unfold walk
  rw [walkState_dirs]
  have h0 : (PyDict.empty.get d) = 0 := rfl
  rw [h0, Nat.zero_add]
  have hcong : ∀ f ∈ filesUnder fs root,
      (if includedFile isWin f
       then f.size * ((ancestorsFrom root f.path).count d) else 0)
        = (if includedFile isWin f && d.isPrefixOf f.path.dropLast
           then f.size else 0) := by
    intro f _
    by_cases hi : includedFile isWin f = true
    · rw [if_pos hi]
      by_cases hdp : d.isPrefixOf f.path.dropLast = true
      · have hmem : d ∈ ancestorsFrom root f.path :=
          (mem_ancestorsFrom root f.path d).mpr ⟨hd, hdp⟩
        rw [count_nodup d _ (nodup_ancestorsFrom root f.path), if_pos hmem]
        simp [hi, hdp]
      · have hnmem : d ∉ ancestorsFrom root f.path := fun hc =>
          hdp ((mem_ancestorsFrom root f.path d).mp hc).2
        rw [count_nodup d _ (nodup_ancestorsFrom root f.path), if_neg hnmem]
        simp only [Bool.not_eq_true] at hdp
        simp [hi, hdp]
    · simp only [Bool.not_eq_true] at hi
      simp [hi]
  rw [List.map_congr_left hcong, sum_map_ite]

theorem spec_C3_witness :
    (walk false fsA ["r"]).dir_path_to_size.get ["r", "s"]
      = (((filesUnder fsA ["r"]).filter
            (fun f => includedFile false f
              && List.isPrefixOf ["r", "s"] f.path.dropLast)).map
          (fun f => f.size)).sum :=
  spec_C3 false fsA ["r"] ["r", "s"] rfl

/-- Claim C5: store failures are non-fatal to `get_directory_size`.  A
failing lookup behaves like a missing entry: the function recomputes by
walking and returns the walked total.  A failing batch write still returns
the freshly computed total and leaves the cache store unchanged.  (The
embedding is a total function: no store error escapes the call.) -/
theorem spec_C5 (isWin : Bool) (fs : FS) (cache : Cache) (lf wf : Bool)
    (root : Path) (m : Int)
    (h1 : fs.dirMtime root = some m)
    (h2 : lookup_size_cache lf cache root m = none) :
    (get_directory_size isWin fs cache true wf root).size
        = (walk isWin fs root).total_size
    ∧ (get_directory_size isWin fs cache true wf root).walked = true
    ∧ (get_directory_size isWin fs cache lf true root).size
        = (walk isWin fs root).total_size
    ∧ (get_directory_size isWin fs cache lf true root).cache = cache := by
  refine ⟨?_, ?_, ?_, ?_⟩
  · simp [get_directory_size, lookup_size_cache, h1]
  · simp [get_directory_size, lookup_size_cache, h1]
  · simp [get_directory_size, h1, h2]
  · simp [get_directory_size, h1, h2]

theorem spec_C5_witness :
    (get_directory_size false fsA cache0 true false ["r"]).size
        = (walk false fsA ["r"]).total_size
    ∧ (get_directory_size false fsA cache0 true false ["r"]).walked = true
    ∧ (get_directory_size false fsA cache0 false true ["r"]).size
        = (walk false fsA ["r"]).total_size
    ∧ (get_directory_size false fsA cache0 false true ["r"]).cache = cache0 :=
  spec_C5 false fsA cache0 false false ["r"] 11 rfl rfl

/-- Claim C6: symbolic links are always excluded from the byte counts, and
the Windows reparse-point files additionally so; removing every excluded file
from the filesystem leaves every walk total unchanged, so a symlink to a
large file contributes no bytes.  On non-Windows platforms
`is_windows_hardlink` is false for every path; on Windows a file carrying
the reparse-point attribute tests true. -/
theorem spec_C6 :
    (∀ f : FSFile, is_windows_hardlink false f = false)
    ∧ (∀ (isWin : Bool) (fs : FS) (root : Path),
        (walk isWin fs root).total_size
          = (walk isWin
              { fs with files := fs.files.filter (fun f => !(f.isLink || is_windows_hardlink isWin f)) }
              root).total_size)
    ∧ is_windows_hardlink true reparseSample = true := by
  refine ⟨fun f => rfl, ?_, rfl⟩
  intro isWin fs root
  rw [walk_total_eq, walk_total_eq]
  simp only [filesUnder, List.filter_filter]
  have hcong : ∀ f ∈ fs.files,
      (includedFile isWin f && root.isPrefixOf f.path.dropLast)
        = (includedFile isWin f
            && (root.isPrefixOf f.path.dropLast
                && !(f.isLink || is_windows_hardlink isWin f))) := by
    intro f _
    by_cases he : (f.isLink || is_windows_hardlink isWin f) = true
    · simp [includedFile, he]
    · simp only [Bool.not_eq_true] at he
      simp [includedFile, he]
  rw [List.filter_congr hcong]

/-- Claim C7: scanning the same unchanged root twice with a working store
yields the same size, and the second call takes the cache-hit path: it does
not walk. -/
theorem spec_C7 (isWin : Bool) (fs : FS) (cache : Cache) (root : Path)
    (m : Int) (h1 : fs.dirMtime root = some m) :
    (get_directory_size isWin fs
        (get_directory_size isWin fs cache false false root).cache
        false false root).size
      = (get_directory_size isWin fs cache false false root).size
    ∧ (get_directory_size isWin fs
        (get_directory_size isWin fs cache false false root).cache
        false false root).walked = false := by
  cases hl : lookup_size_cache false cache root m with
  | some s =>
    have hr : get_directory_size isWin fs cache false false root
        = ⟨s, cache, false⟩ := by
      simp [get_directory_size, h1, hl]
    rw [hr]
    simp [get_directory_size, h1, hl]
  | none =>
    have hr : get_directory_size isWin fs cache false false root
        = ⟨(walk isWin fs root).total_size,
           write_size_cache fs cache root m (walk isWin fs root), true⟩ := by
      simp [get_directory_size, h1, hl]
    rw [hr]
    have hc : write_size_cache fs cache root m (walk isWin fs root) root
        = some ((walk isWin fs root).total_size, m) := by
      simp [write_size_cache]
    constructor
    · simp [get_directory_size, lookup_size_cache, h1, hc]
    · simp [get_directory_size, lookup_size_cache, h1, hc]

theorem spec_C7_witness :
    (get_directory_size false fsA
        (get_directory_size false fsA cache0 false false ["r"]).cache
        false false ["r"]).size
      = (get_directory_size false fsA cache0 false false ["r"]).size
    ∧ (get_directory_size false fsA
        (get_directory_size false fsA cache0 false false ["r"]).cache
        false false ["r"]).walked = false :=
  spec_C7 false fsA cache0 ["r"] 11 rfl

/-- Claim C4, amended: after a cache-miss walk the batch is all-or-nothing
(a failed write persists nothing); a successful write stores the root entry
and an entry for every ancestor directory discovered during the walk whose
own mtime is readable at write time, while an ancestor whose mtime read
raises is skipped (its cache row is left as it was). -/
theorem spec_C4_amended (isWin : Bool) (fs : FS) (cache : Cache) (lf : Bool)
    (root : Path) (m : Int) (d : Path)
    (h1 : fs.dirMtime root = some m)
    (h2 : lookup_size_cache lf cache root m = none)
    (h3 : d ≠ root)
    (h4 : d ∈ (walk isWin fs root).dir_path_to_size.keys) :
    (get_directory_size isWin fs cache lf true root).cache = cache
    ∧ (get_directory_size isWin fs cache lf false root).cache root
        = some ((walk isWin fs root).total_size, m)
    ∧ (get_directory_size isWin fs cache lf false root).cache d
        = (match fs.dirMtime d with
           | some dm => some ((walk isWin fs root).dir_path_to_size.get d, dm)
           | none => cache d) := by
  refine ⟨?_, ?_, ?_⟩
  · simp [get_directory_size, h1, h2]
  · simp [get_directory_size, h1, h2, write_size_cache]
  · simp only [get_directory_size, h1, h2]
    simp only [Bool.false_eq_true, if_false, write_size_cache]
    rw [if_neg h3]
    have hw := writeFold_get fs (walk isWin fs root).dir_path_to_size.val
      (walk isWin fs root).dir_path_to_size.keys cache d
    simp only [PyDict.items]
    rw [hw, if_pos h4]
    cases fs.dirMtime d <;> rfl

theorem spec_C4_amended_witness :
    (get_directory_size false fsA cache0 false true ["r"]).cache = cache0
    ∧ (get_directory_size false fsA cache0 false false ["r"]).cache ["r"]
        = some ((walk false fsA ["r"]).total_size, 11)
    ∧ (get_directory_size false fsA cache0 false false ["r"]).cache ["r", "s"]
        = (match fsA.dirMtime ["r", "s"] with
           | some dm =>
             some ((walk false fsA ["r"]).dir_path_to_size.get ["r", "s"], dm)
           | none => cache0 ["r", "s"]) :=
  spec_C4_amended false fsA cache0 false ["r"] 11 ["r", "s"] rfl rfl
    (by decide) (by decide)

/-- Claim C4, counterexample to the claim as stated: in `fsC4` the directory
`r/a` is discovered during the walk (it is a key of the per-directory map),
yet after a fully successful batch write the store holds no entry for it,
because its mtime read raises at write time.  So the store does not receive
an entry for every ancestor discovered during the walk. -/
theorem spec_C4_counterexample :
    (["r", "a"] ∈ (walk false fsC4 ["r"]).dir_path_to_size.keys)
    ∧ (get_directory_size false fsC4 cache0 false false ["r"]).cache ["r", "a"]
        = none := by
  constructor
  · decide
  · rfl

/-- Claim C8, amended: in multi-root mode the rows of the terminal result
are exactly the given roots that are non-empty and exist on the filesystem,
one row per such root, in input-list order (nonexistent roots are silently
omitted); no root is descended into. -/
theorem spec_C8_amended (isWin : Bool) (fs : FS) (cache : Cache)
    (lf wf sds : Bool) (targets : List Path) :
    ((get_entries_list isWin fs cache lf wf targets sds).1).map (fun e => e.path)
      = targets.filter (fun t => !t.isEmpty && fs.pathKnown t) := by
  suffices H : ∀ (ts : List Path) (acc : List Entry) (c : Cache),
      ((ts.foldl (entries_step isWin fs lf wf sds) (acc, c)).1).map
          (fun e => e.path)
        = acc.map (fun e => e.path)
            ++ ts.filter (fun t => !t.isEmpty && fs.pathKnown t) by
    have hh := H targets [] cache
    simpa [get_entries_list] using hh
  intro ts
  induction ts with
  | nil => intro acc c; simp
  | cons t ts ih =>
    intro acc c
    rw [List.foldl_cons, List.filter_cons]
    by_cases hskip : (t.isEmpty || !fs.pathKnown t) = true
    · have hstep : entries_step isWin fs lf wf sds (acc, c) t = (acc, c) := by
        simp [entries_step, hskip]
      have hkeep : (!t.isEmpty && fs.pathKnown t) = false := by
        cases hti : t.isEmpty <;> cases htk : fs.pathKnown t <;> simp_all
      rw [hstep, ih, hkeep]
      simp
    · have hkeep : (!t.isEmpty && fs.pathKnown t) = true := by
        cases hti : t.isEmpty <;> cases htk : fs.pathKnown t <;> simp_all
      rw [hkeep]
      by_cases hdir : fs.pathIsDir t = true
      · have hstep : entries_step isWin fs lf wf sds (acc, c) t
            = (acc ++ [{ name := t, path := t, is_dir := true,
                         size := if sds
                           then some (get_directory_size isWin fs c lf wf t).size
                           else none }],
               (get_directory_size isWin fs c lf wf t).cache) := by
          simp [entries_step, hskip, hdir]
        rw [hstep, ih]
        simp
      · have hstep : entries_step isWin fs lf wf sds (acc, c) t
            = (acc ++ [{ name := [t.getLastD ""], path := t, is_dir := false,
                         size := if sds
                           then some ((getsize_file fs t).getD 0) else none }],
               c) := by
          simp [entries_step, hskip, hdir]
        rw [hstep, ih]
        simp

/-- Claim C8, counterexample to the claim as stated: scanning the root list
`[a, b]` over a filesystem where `b` does not exist yields one result row,
not one row per root. -/
theorem spec_C8_counterexample :
    ((get_entries_list false fsE cache0 false false [["a"], ["b"]] true).1).map
        (fun e => e.path)
      ≠ [["a"], ["b"]] := by
  decide

/-- `delete_items` loop body on a path that is neither a directory nor a
file of the state: both branches miss and the state is unchanged (the
`os.remove` exception is swallowed). -/
theorem delete_one_missing (fs : DelFS) (item : Path)
    (h1 : (item, true) ∉ fs.nodes) (h2 : (item, false) ∉ fs.nodes) :
    delete_one fs item = fs := by
  unfold delete_one
  rw [if_neg h1, if_neg (fun hc => h2 hc.1)]

/-- `delete_items` loop body on an existing file whose removal succeeds. -/
theorem delete_one_file (fs : DelFS) (item : Path)
    (h1 : (item, true) ∉ fs.nodes) (h2 : (item, false) ∈ fs.nodes)
    (h3 : fs.removeFails item = false) :
    delete_one fs item
      = { fs with nodes := fs.nodes.filter (fun n => n ≠ (item, false)) } := by
  unfold delete_one
  rw [if_neg h1, if_pos ⟨h2, h3⟩]

/-- `delete_items` loop body on an existing directory whose recursive
removal succeeds: the whole subtree disappears. -/
theorem delete_one_dir (fs : DelFS) (item : Path)
    (h1 : (item, true) ∈ fs.nodes) (h2 : fs.rmtreeFails item = false) :
    delete_one fs item
      = { fs with nodes := fs.nodes.filter (fun n => !(item.isPrefixOf n.1)) } := by
  unfold delete_one
  rw [if_pos h1, if_neg (by simp [h2])]

/-- Claim C9: `delete_items` processes each item independently, swallowing
per-item errors: with a deletable file `p`, a nonexistent path `q` and a
deletable directory `d` in the same request, the file is removed, the
missing path is silently skipped (processing continues past it), and the
directory is removed together with its whole subtree; everything else is
untouched and the call returns normally (the embedding is a total
function). -/
theorem spec_C9 (fs : DelFS) (p q d : Path)
    (hp1 : (p, false) ∈ fs.nodes)
    (hp2 : (p, true) ∉ fs.nodes)
    (hp3 : fs.removeFails p = false)
    (hq : ∀ b, (q, b) ∉ fs.nodes)
    (hd1 : (d, true) ∈ fs.nodes)
    (hd2 : fs.rmtreeFails d = false) :
    (delete_items fs [p, q, d]).nodes
      = (fs.nodes.filter (fun n => n ≠ (p, false))).filter
          (fun n => !(d.isPrefixOf n.1)) := by
  have hq1t : ((q, true) : Path × Bool)
      ∉ fs.nodes.filter (fun n => n ≠ (p, false)) := by
    simp only [List.mem_filter]
    intro hc
    exact hq true hc.1
  have hq1f : ((q, false) : Path × Bool)
      ∉ fs.nodes.filter (fun n => n ≠ (p, false)) := by
    simp only [List.mem_filter]
    intro hc
    exact hq false hc.1
  have hd1' : ((d, true) : Path × Bool)
      ∈ fs.nodes.filter (fun n => n ≠ (p, false)) := by
    rw [List.mem_filter]
    exact ⟨hd1, by simp⟩
  have h1 := delete_one_file fs p hp2 hp1 hp3
  show (delete_one (delete_one (delete_one fs p) q) d).nodes = _
  rw [h1, delete_one_missing _ q hq1t hq1f,
    delete_one_dir
      { fs with nodes := fs.nodes.filter (fun n => n ≠ (p, false)) } d hd1' hd2]

theorem spec_C9_witness :
    (delete_items delA [["f"], ["nope"], ["dd"]]).nodes
      = (delA.nodes.filter (fun n => n ≠ (["f"], false))).filter
          (fun n => !(List.isPrefixOf ["dd"] n.1)) :=
  spec_C9 delA ["f"] ["nope"] ["dd"] (by decide) (by decide) rfl
    (by decide) (by decide) rfl

/-- Claim C10: `save_target_directories` INSERTs into a column `dir` that
does not exist in the `target_directories` table (whose columns are
`platform` and `path`), so for every non-empty directory list the first
INSERT raises, the commit is never reached, and nothing is persisted: the
database is left exactly as it was (the uncommitted DELETE is rolled back
when the connection closes). -/
theorem spec_C10 (db : AdminDB) (platform : String) (dirs : List String)
    (h : dirs ≠ []) :
    ("dir" ∈ save_insert_columns ∧ "dir" ∉ target_directories_columns)
    ∧ (save_target_directories db platform dirs).1
        = some "table target_directories has no column named dir"
    ∧ (save_target_directories db platform dirs).2 = db := by
  obtain ⟨d, ds, rfl⟩ := List.exists_cons_of_ne_nil h
  have hco : insert_columns_ok = false := by decide
  refine ⟨⟨by decide, by decide⟩, ?_, ?_⟩
  · simp [save_target_directories, save_insert_loop, hco]
  · simp [save_target_directories, save_insert_loop, hco]

theorem spec_C10_witness :
    ("dir" ∈ save_insert_columns ∧ "dir" ∉ target_directories_columns)
    ∧ (save_target_directories dbA "mac" ["/a", "/b"]).1
        = some "table target_directories has no column named dir"
    ∧ (save_target_directories dbA "mac" ["/a", "/b"]).2 = dbA :=
  spec_C10 dbA "mac" ["/a", "/b"] (by decide)

end MyDiskCleaner
